import Mathlib

/-!
Verification of the copyvio worker core (`earwigbot/wiki/copyvios/workers.py`).

The development shallowly embeds the data model and operations of the module:
the confidence function of `CopyvioWorkspace._calculate_confidence`, the
URL-opening filter of `_CopyvioWorker._open_url`, the queue registry
(`_CopyvioQueues`), the enqueue/dequeue state machine, the source records
(`_CopyvioSource`) and the early-finish / wait operations.  Machine floats of
the original are idealised as real numbers, byte strings as `String`, and the
mutable object graph as explicit state passing over indexed stores.
-/

open Real Filter

namespace Copyvios

/-! ## Confidence function (`CopyvioWorkspace._calculate_confidence`) -/

/-- The logarithmic branch of `conf_with_article_and_delta`:
`log(1 / (1 - ratio))`, taken when `ratio <= 0.52763`. -/
noncomputable def conf_log_branch (r : ℝ) : ℝ := Real.log (1 / (1 - r))

/-- The polynomial branch of `conf_with_article_and_delta`:
`(-0.8939 * (ratio ** 2)) + (1.8948 * ratio) - 0.0009`, taken when
`ratio > 0.52763`. -/
def conf_poly_branch (r : ℝ) : ℝ := -0.8939 * r ^ 2 + 1.8948 * r - 0.0009

/-- Embedding of the inner function `conf_with_article_and_delta(article, delta)`
of `CopyvioWorkspace._calculate_confidence`.  It forms `ratio = delta / article`
and dispatches on `ratio <= 0.52763`. -/
noncomputable def conf_with_article_and_delta (article delta : ℝ) : ℝ :=
  if delta / article ≤ 0.52763 then conf_log_branch (delta / article)
  else conf_poly_branch (delta / article)

/-- Embedding of the inner function `conf_with_delta(delta)` of
`CopyvioWorkspace._calculate_confidence`: a four-piece rational function of the
intersection (delta) size. -/
noncomputable def conf_with_delta (delta : ℝ) : ℝ :=
  if delta ≤ 100 then delta / (delta + 100)
  else if delta ≤ 250 then (delta - 25) / (delta + 50)
  else if delta ≤ 500 then (10.5 * delta - 750) / (10 * delta)
  else (delta - 50) / delta

/-- Embedding of `CopyvioWorkspace._calculate_confidence`: the maximum of the
two branch functions, evaluated at the article chain size and the delta
(intersection) chain size. -/
noncomputable def calculate_confidence (article delta : ℝ) : ℝ :=
  max (conf_with_article_and_delta article delta) (conf_with_delta delta)

/-- Modelled from the spec (section 4.4): the function `f1(A, Δ)` exactly as the
specification words it, for comparison with `conf_with_article_and_delta`. -/
noncomputable def spec_f1 (A Δ : ℝ) : ℝ :=
  if Δ / A ≤ 0.52763 then Real.log (1 / (1 - Δ / A))
  else -0.8939 * (Δ / A) ^ 2 + 1.8948 * (Δ / A) - 0.0009

/-- Modelled from the spec (section 4.4): the function `f2(Δ)` exactly as the
specification words it, for comparison with `conf_with_delta`. -/
noncomputable def spec_f2 (Δ : ℝ) : ℝ :=
  if Δ ≤ 100 then Δ / (Δ + 100)
  else if Δ ≤ 250 then (Δ - 25) / (Δ + 50)
  else if Δ ≤ 500 then (10.5 * Δ - 750) / (10 * Δ)
  else (Δ - 50) / Δ

lemma conf_with_article_and_delta_eq_spec_f1 (A Δ : ℝ) :
    conf_with_article_and_delta A Δ = spec_f1 A Δ := by
  unfold conf_with_article_and_delta spec_f1 conf_log_branch conf_poly_branch
  split_ifs <;> ring

lemma conf_with_delta_eq_spec_f2 (Δ : ℝ) : conf_with_delta Δ = spec_f2 Δ := rfl

lemma calculate_confidence_1000_600 : calculate_confidence 1000 600 = (600 - 50) / 600 := by
  unfold calculate_confidence conf_with_article_and_delta conf_with_delta
  rw [if_neg (by norm_num), if_neg (by norm_num), if_neg (by norm_num), if_neg (by norm_num)]
  unfold conf_poly_branch
  rw [max_eq_right (by norm_num)]

/-- C1: the confidence computed by the workspace equals `max (f1 A Δ) (f2 Δ)`
with `f1` and `f2` the piecewise functions given in the specification, and in
particular `calculate_confidence 1000 600 = (600 - 50) / 600`. -/
theorem C1_confidence_is_max_of_branches (A Δ : ℝ) (hA : 0 < A) (hΔ : 0 ≤ Δ) :
    calculate_confidence A Δ = max (spec_f1 A Δ) (spec_f2 Δ) ∧
    calculate_confidence 1000 600 = (600 - 50) / 600 := by
  constructor
  · unfold calculate_confidence
    rw [conf_with_article_and_delta_eq_spec_f1, conf_with_delta_eq_spec_f2]
  · exact calculate_confidence_1000_600

/-- Witness for C1 at the concrete input `A = 1000`, `Δ = 600`. -/
theorem C1_confidence_is_max_of_branches_witness :
    calculate_confidence 1000 600 = max (spec_f1 1000 600) (spec_f2 600) ∧
    calculate_confidence 1000 600 = (600 - 50) / 600 :=
  ⟨(C1_confidence_is_max_of_branches 1000 600 (by norm_num) (by norm_num)).1,
   (C1_confidence_is_max_of_branches 1000 600 (by norm_num) (by norm_num)).2⟩

/-! ## Numerical behaviour of the two confidence branches (C2) -/

lemma conf_log_branch_boundary_eq :
    conf_log_branch 0.52763 = Real.log (100000 / 47237) := by
  unfold conf_log_branch
  norm_num

lemma log_boundary_upper : Real.log (100000 / 47237) ≤ 0.749995 := by
  rw [Real.log_le_iff_le_exp (by norm_num)]
  have h := Real.sum_le_exp_of_nonneg (x := 0.749995) (by norm_num) 10
  refine le_trans ?_ h
  rw [show (10 : ℕ) = 9 + 1 by rfl]
  repeat rw [Finset.sum_range_succ]
  rw [Finset.sum_range_zero]
  norm_num [Nat.factorial]

lemma log_boundary_lower : (0.74999 : ℝ) ≤ Real.log (100000 / 47237) := by
  rw [Real.le_log_iff_exp_le (by norm_num)]
  have h := Real.exp_bound' (x := 0.74999) (by norm_num) (by norm_num) (n := 10) (by norm_num)
  refine le_trans h ?_
  rw [show (10 : ℕ) = 9 + 1 by rfl]
  repeat rw [Finset.sum_range_succ]
  rw [Finset.sum_range_zero]
  norm_num [Nat.factorial]

lemma conf_log_branch_mono {r1 r2 : ℝ} (h12 : r1 ≤ r2) (h2 : r2 < 1) :
    conf_log_branch r1 ≤ conf_log_branch r2 := by
  unfold conf_log_branch
  have hpos1 : (0 : ℝ) < 1 / (1 - r1) := one_div_pos.mpr (by linarith)
  have hpos2 : (0 : ℝ) < 1 / (1 - r2) := one_div_pos.mpr (by linarith)
  rw [Real.log_le_log_iff hpos1 hpos2]
  exact one_div_le_one_div_of_le (by linarith) (by linarith)

lemma conf_log_branch_le_boundary {r : ℝ} (h : r ≤ 0.52763) :
    conf_log_branch r ≤ 0.749995 :=
  le_trans (conf_log_branch_mono h (by norm_num))
    (le_trans (le_of_eq conf_log_branch_boundary_eq) log_boundary_upper)

lemma conf_poly_branch_mono {r1 r2 : ℝ} (h12 : r1 ≤ r2) (h2 : r2 < 1) :
    conf_poly_branch r1 ≤ conf_poly_branch r2 := by
  unfold conf_poly_branch
  nlinarith [sq_nonneg (r2 - r1), sq_nonneg (r1 + r2)]

lemma conf_poly_branch_ge_boundary {r : ℝ} (h : 0.52763 ≤ r) (h1 : r < 1) :
    (0.749995 : ℝ) ≤ conf_poly_branch r := by
  unfold conf_poly_branch
  nlinarith [sq_nonneg (r - 0.52763)]

lemma conf_branches_agree_at_boundary :
    |conf_log_branch 0.52763 - conf_poly_branch 0.52763| < 1 / 100000 := by
  have hu := log_boundary_upper
  have hl := log_boundary_lower
  rw [conf_log_branch_boundary_eq]
  have hp1 : (0.749995 : ℝ) ≤ conf_poly_branch 0.52763 := by
    unfold conf_poly_branch; norm_num
  have hp2 : conf_poly_branch 0.52763 ≤ 0.749998 := by
    unfold conf_poly_branch; norm_num
  rw [abs_sub_lt_iff]
  constructor <;> linarith

lemma conf_with_article_and_delta_zero {A : ℝ} (hA : 0 < A) :
    conf_with_article_and_delta A 0 = 0 := by
  unfold conf_with_article_and_delta
  rw [zero_div, if_pos (by norm_num)]
  unfold conf_log_branch
  norm_num

lemma conf_with_article_and_delta_mono {A d1 d2 : ℝ} (hA : 0 < A) (h1 : 0 ≤ d1)
    (h12 : d1 ≤ d2) (h2 : d2 < A) :
    conf_with_article_and_delta A d1 ≤ conf_with_article_and_delta A d2 := by
  have hr12 : d1 / A ≤ d2 / A := by gcongr
  have hr2 : d2 / A < 1 := (div_lt_one hA).2 h2
  unfold conf_with_article_and_delta
  split_ifs with ha hb hb
  · exact conf_log_branch_mono hr12 (by linarith)
  · exact le_trans (conf_log_branch_le_boundary ha)
      (conf_poly_branch_ge_boundary (by linarith [not_le.mp hb]) hr2)
  · exact absurd (le_trans hr12 hb) ha
  · exact conf_poly_branch_mono hr12 hr2

lemma conf_with_delta_continuousAt_100 : ContinuousAt conf_with_delta 100 := by
  rw [continuousAt_iff_continuous_left_right]
  constructor
  · apply ContinuousWithinAt.congr_of_eventuallyEq
      (f := fun x : ℝ => x / (x + 100))
    · exact (continuousAt_id.div (by fun_prop) (by norm_num)).continuousWithinAt
    · filter_upwards [self_mem_nhdsWithin] with x hx
      simp only [Set.mem_Iic] at hx
      unfold conf_with_delta
      rw [if_pos hx]
    · unfold conf_with_delta
      rw [if_pos (by norm_num)]
  · apply ContinuousWithinAt.congr_of_eventuallyEq
      (f := fun x : ℝ => (x - 25) / (x + 50))
    · exact (((continuousAt_id.sub continuousAt_const).div
        (by fun_prop) (by norm_num)).continuousWithinAt)
    · have hmem : Set.Iio (250 : ℝ) ∩ Set.Ici (100 : ℝ) ∈
          nhdsWithin (100 : ℝ) (Set.Ici 100) :=
        Filter.inter_mem (nhdsWithin_le_nhds (Iio_mem_nhds (by norm_num)))
          self_mem_nhdsWithin
      filter_upwards [hmem] with x hx
      obtain ⟨hlt, hge⟩ := hx
      simp only [Set.mem_Iio] at hlt
      simp only [Set.mem_Ici] at hge
      unfold conf_with_delta
      rcases eq_or_lt_of_le hge with heq | hgt
      · rw [← heq]; norm_num
      · rw [if_neg (by linarith), if_pos (by linarith)]
    · unfold conf_with_delta
      rw [if_pos (by norm_num)]
      norm_num

lemma conf_with_delta_continuousAt_250 : ContinuousAt conf_with_delta 250 := by
  rw [continuousAt_iff_continuous_left_right]
  constructor
  · apply ContinuousWithinAt.congr_of_eventuallyEq
      (f := fun x : ℝ => (x - 25) / (x + 50))
    · exact (((continuousAt_id.sub continuousAt_const).div
        (by fun_prop) (by norm_num)).continuousWithinAt)
    · have hmem : Set.Ioi (100 : ℝ) ∩ Set.Iic (250 : ℝ) ∈
          nhdsWithin (250 : ℝ) (Set.Iic 250) :=
        Filter.inter_mem (nhdsWithin_le_nhds (Ioi_mem_nhds (by norm_num)))
          self_mem_nhdsWithin
      filter_upwards [hmem] with x hx
      obtain ⟨hgt, hle⟩ := hx
      simp only [Set.mem_Ioi] at hgt
      simp only [Set.mem_Iic] at hle
      unfold conf_with_delta
      rw [if_neg (by linarith), if_pos hle]
    · unfold conf_with_delta
      rw [if_neg (by norm_num), if_pos (by norm_num)]
  · apply ContinuousWithinAt.congr_of_eventuallyEq
      (f := fun x : ℝ => (10.5 * x - 750) / (10 * x))
    · exact (((continuousAt_const.mul continuousAt_id).sub continuousAt_const).div
        (by fun_prop) (by norm_num)).continuousWithinAt
    · have hmem : Set.Iio (500 : ℝ) ∩ Set.Ici (250 : ℝ) ∈
          nhdsWithin (250 : ℝ) (Set.Ici 250) :=
        Filter.inter_mem (nhdsWithin_le_nhds (Iio_mem_nhds (by norm_num)))
          self_mem_nhdsWithin
      filter_upwards [hmem] with x hx
      obtain ⟨hlt, hge⟩ := hx
      simp only [Set.mem_Iio] at hlt
      simp only [Set.mem_Ici] at hge
      unfold conf_with_delta
      rcases eq_or_lt_of_le hge with heq | hgt
      · rw [← heq]; norm_num
      · rw [if_neg (by linarith), if_neg (by linarith), if_pos (by linarith)]
    · unfold conf_with_delta
      rw [if_neg (by norm_num), if_pos (by norm_num)]
      norm_num

lemma conf_with_delta_continuousAt_500 : ContinuousAt conf_with_delta 500 := by
  rw [continuousAt_iff_continuous_left_right]
  constructor
  · apply ContinuousWithinAt.congr_of_eventuallyEq
      (f := fun x : ℝ => (10.5 * x - 750) / (10 * x))
    · exact (((continuousAt_const.mul continuousAt_id).sub continuousAt_const).div
        (by fun_prop) (by norm_num)).continuousWithinAt
    · have hmem : Set.Ioi (250 : ℝ) ∩ Set.Iic (500 : ℝ) ∈
          nhdsWithin (500 : ℝ) (Set.Iic 500) :=
        Filter.inter_mem (nhdsWithin_le_nhds (Ioi_mem_nhds (by norm_num)))
          self_mem_nhdsWithin
      filter_upwards [hmem] with x hx
      obtain ⟨hgt, hle⟩ := hx
      simp only [Set.mem_Ioi] at hgt
      simp only [Set.mem_Iic] at hle
      unfold conf_with_delta
      rw [if_neg (by linarith), if_neg (by linarith), if_pos hle]
    · unfold conf_with_delta
      rw [if_neg (by norm_num), if_neg (by norm_num), if_pos (by norm_num)]
  · apply ContinuousWithinAt.congr_of_eventuallyEq
      (f := fun x : ℝ => (x - 50) / x)
    · exact ((continuousAt_id.sub continuousAt_const).div
        (by fun_prop) (by norm_num)).continuousWithinAt
    · filter_upwards [self_mem_nhdsWithin] with x hx
      simp only [Set.mem_Ici] at hx
      unfold conf_with_delta
      rcases eq_or_lt_of_le hx with heq | hgt
      · rw [← heq]; norm_num
      · rw [if_neg (by linarith), if_neg (by linarith), if_neg (by linarith)]
    · unfold conf_with_delta
      rw [if_neg (by norm_num), if_neg (by norm_num), if_pos (by norm_num)]
      norm_num

lemma conf_with_delta_zero : conf_with_delta 0 = 0 := by
  unfold conf_with_delta
  rw [if_pos (by norm_num)]
  norm_num

lemma conf_with_delta_tendsto_one : Tendsto conf_with_delta atTop (nhds 1) := by
  have h : Tendsto (fun x : ℝ => 1 - 50 / x) atTop (nhds 1) := by
    have h2 : Tendsto (fun x : ℝ => 50 / x) atTop (nhds 0) :=
      Tendsto.div_atTop tendsto_const_nhds tendsto_id
    simpa using tendsto_const_nhds.sub h2
  apply h.congr'
  filter_upwards [Filter.eventually_ge_atTop (501 : ℝ)] with x hx
  have hx0 : x ≠ 0 := by linarith
  unfold conf_with_delta
  rw [if_neg (by linarith), if_neg (by linarith), if_neg (by linarith)]
  field_simp

/-- C2: the two confidence branch functions are well behaved at their piecewise
boundaries: the two formulas of `conf_with_article_and_delta` agree at the
ratio `0.52763` within the tolerance `10 ^ (-5)`, the function vanishes at
delta `0` and is monotonically non-decreasing in the ratio on `[0, 1)`;
`conf_with_delta` is continuous at `100`, `250` and `500`, vanishes at `0`,
and tends to `1` as the delta size grows without bound. -/
theorem C2_branch_functions_well_behaved :
    |conf_log_branch 0.52763 - conf_poly_branch 0.52763| < 1 / 100000 ∧
    (∀ A : ℝ, 0 < A → conf_with_article_and_delta A 0 = 0) ∧
    (∀ A d1 d2 : ℝ, 0 < A → 0 ≤ d1 → d1 ≤ d2 → d2 < A →
      conf_with_article_and_delta A d1 ≤ conf_with_article_and_delta A d2) ∧
    ContinuousAt conf_with_delta 100 ∧ ContinuousAt conf_with_delta 250 ∧
    ContinuousAt conf_with_delta 500 ∧ conf_with_delta 0 = 0 ∧
    Tendsto conf_with_delta atTop (nhds 1) :=
  ⟨conf_branches_agree_at_boundary,
   fun _ hA => conf_with_article_and_delta_zero hA,
   fun _ _ _ hA h1 h12 h2 => conf_with_article_and_delta_mono hA h1 h12 h2,
   conf_with_delta_continuousAt_100, conf_with_delta_continuousAt_250,
   conf_with_delta_continuousAt_500, conf_with_delta_zero,
   conf_with_delta_tendsto_one⟩

/-- Witness for C2: the quantified conjuncts instantiated at concrete inputs. -/
theorem C2_branch_functions_well_behaved_witness :
    conf_with_article_and_delta 1000 0 = 0 ∧
    conf_with_article_and_delta 1000 300 ≤ conf_with_article_and_delta 1000 600 :=
  ⟨C2_branch_functions_well_behaved.2.1 1000 (by norm_num),
   C2_branch_functions_well_behaved.2.2.1 1000 300 600 (by norm_num) (by norm_num)
     (by norm_num) (by norm_num)⟩

/-! ## Data model: sources, queues, workspace state -/

/-- A Markov-chain fingerprint (external model `earwigbot.wiki.copyvios.markov`):
either the module constant `EMPTY` or the chain built from a text by
`MarkovChain(text)`. -/
inductive MChain
  | EMPTY : MChain
  | ofText (text : String) : MChain
deriving DecidableEq

/-- An intersection fingerprint: either the module constant
`EMPTY_INTERSECTION` or `MarkovChainIntersection(article, other)`. -/
inductive MInter
  | EMPTY_INTERSECTION : MInter
  | ofChains (article other : MChain) : MInter
deriving DecidableEq

/-- State of one `_CopyvioSource` object: the constructor arguments, the result
fields `confidence` and `chains`, and whether the one-shot `_event` has been
set.  The back reference `_workspace` is represented by the ambient state. -/
structure Source where
  url : String
  key : String
  headers : List (String × String)
  timeout : ℚ
  confidence : ℝ
  chains : MChain × MInter
  eventSet : Bool

/-- Construction of a `_CopyvioSource`: result fields default to `0.0` and
`(EMPTY, EMPTY_INTERSECTION)`, the event starts unset. -/
def mkSource (url key : String) (headers : List (String × String)) (timeout : ℚ) : Source :=
  { url := url, key := key, headers := headers, timeout := timeout,
    confidence := 0, chains := (MChain.EMPTY, MInter.EMPTY_INTERSECTION),
    eventSet := false }

/-- `_CopyvioSource.active`: the source still needs to be filled out. -/
def Source.active (s : Source) : Bool := !s.eventSet

/-- `_CopyvioSource.complete`: fill in the result and set the event. -/
def Source.complete (s : Source) (confidence : ℝ) (sourceChain : MChain)
    (deltaChain : MInter) : Source :=
  { s with
    confidence := confidence, chains := (sourceChain, deltaChain),
    eventSet := true }

/-- `_CopyvioSource.cancel`: set the event without filling in the data. -/
def Source.cancel (s : Source) : Source := { s with eventSet := true }

/-- Python truthiness of the optional absolute deadline `until`
(`None` and `0.0` are falsy). -/
def pyTruthy : Option ℚ → Bool
  | none => false
  | some x => decide (x ≠ 0)

/-- Upper bound on the wall-clock time `_CopyvioSource.join(until)` can block,
given the current time and whether the source's event is already set: the body
runs only when `until` is truthy, returns at once when `until - time() <= 0`,
and otherwise waits on the event for at most `until - time()` seconds
(`Event.wait` returns immediately when the event is set). -/
def joinMaxBlock (untl : Option ℚ) (now : ℚ) (eventIsSet : Bool) : ℚ :=
  if pyTruthy untl then
    if untl.getD 0 - now ≤ 0 then 0
    else if eventIsSet then 0 else untl.getD 0 - now
  else 0

/-- Combined workspace-and-registry state: the heap `srcs` of all
`_CopyvioSource` objects created so far (a source id is an index into it),
the workspace fields `sources`, `_handled_urls` and `_is_finished`, and the
`_CopyvioQueues` registry: `store` is the heap of `Queue.Queue` objects (a
queue id is an index, the list front is the next item `get` returns), `sites`
maps a domain key to its queue id, and `unassigned` is the dispatch queue
(`none` models a `(StopIteration, None)` stop token). -/
structure CVState where
  srcs : List Source
  sources : List ℕ
  handled : List String
  finished : Bool
  sites : List (String × ℕ)
  store : List (List ℕ)
  unassigned : List (Option (String × ℕ))

/-- The state right after `CopyvioWorkspace.__init__` with a private registry:
no sources, no handled URLs, empty queues. -/
def initState : CVState :=
  { srcs := [], sources := [], handled := [], finished := false,
    sites := [], store := [], unassigned := [] }

/-- Lookup of a domain key in the `sites` mapping. -/
def lookupSite (sites : List (String × ℕ)) (key : String) : Option ℕ :=
  (sites.find? (fun p => p.1 == key)).map (fun p => p.2)

/-- Deletion of a domain key from the `sites` mapping (`del sites[key]`). -/
def delSite (sites : List (String × ℕ)) (key : String) : List (String × ℕ) :=
  sites.filter (fun p => !(p.1 == key))

/-- Contents of the queue with id `qid` in the store. -/
def qget (store : List (List ℕ)) (qid : ℕ) : List ℕ := (store[qid]?).getD []

/-- The total wall-clock time `CopyvioWorkspace.wait` can block: it joins each
source in `self.sources` in turn against the shared absolute deadline. -/
def waitMaxBlock (st : CVState) (untl : Option ℚ) (now : ℚ) : ℚ :=
  (st.sources.map (fun i => joinMaxBlock untl now (((st.srcs[i]?).map
    Source.eventSet).getD true))).sum

/-! ## Workspace operations -/

/-- `CopyvioWorkspace._finish_early`: a no-op when `_is_finished` is already
set; otherwise cancels every source in `self.sources` under the queue lock and
sets `_is_finished`. -/
def finishEarly (st : CVState) : CVState :=
  if st.finished then st
  else { st with
    srcs := st.sources.foldl (fun ss i => List.modify Source.cancel i ss) st.srcs,
    finished := true }

/-- Model of the Python guard `exclude_check and exclude_check(url)`:
false when no exclusion predicate was supplied. -/
def excludedBy (exclude : Option (String → Bool)) (url : String) : Bool :=
  match exclude with
  | none => false
  | some f => f url

/-- One iteration of the `for url in urls` loop body of
`CopyvioWorkspace.enqueue` (after the `_is_finished` check): skip already
handled URLs, record the URL as handled, skip excluded URLs, then create a
`_CopyvioSource` and insert it into the registry — appending to the domain's
queue when the key is present in `sites`, otherwise creating a new queue and
pushing the `(key, queue)` pair onto `unassigned`.  The created source is not
appended to `self.sources` because the original code has no such statement. -/
def enqueueOne (computeKey : String → String) (exclude : Option (String → Bool))
    (headers : List (String × String)) (timeout : ℚ) (st : CVState)
    (url : String) : CVState :=
  if url ∈ st.handled then st
  else
    let st1 := { st with handled := st.handled ++ [url] }
    if excludedBy exclude url then st1
    else
      let key := computeKey url
      let sid := st1.srcs.length
      let st2 := { st1 with srcs := st1.srcs ++ [mkSource url key headers timeout] }
      match lookupSite st2.sites key with
      | some qid =>
          { st2 with store := st2.store.set qid (qget st2.store qid ++ [sid]) }
      | none =>
          let qid := st2.store.length
          { st2 with
            store := st2.store ++ [[sid]],
            sites := st2.sites ++ [(key, qid)],
            unassigned := st2.unassigned ++ [some (key, qid)] }

/-- `CopyvioWorkspace.enqueue(urls, exclude_check)`: iterate the loop body over
the URL list, stopping (`break`) as soon as `_is_finished` is observed. -/
def enqueue (computeKey : String → String) (exclude : Option (String → Bool))
    (headers : List (String × String)) (timeout : ℚ) :
    CVState → List String → CVState
  | st, [] => st
  | st, url :: rest =>
    if st.finished then st
    else enqueue computeKey exclude headers timeout
      (enqueueOne computeKey exclude headers timeout st url) rest

/-- One call of `CopyvioWorkspace.enqueue` with its argument list. -/
structure EnqueueCall where
  computeKey : String → String
  exclude : Option (String → Bool)
  headers : List (String × String)
  timeout : ℚ
  urls : List String

/-- A sequence of `enqueue` calls against one freshly constructed workspace. -/
def runEnqueues (calls : List EnqueueCall) : CVState :=
  calls.foldl
    (fun st c => enqueue c.computeKey c.exclude c.headers c.timeout st c.urls)
    initState

/-! ## C10: join with a falsy deadline -/

/-- C10: `_CopyvioSource.join` with a falsy `until` (None or `0.0`) returns
immediately without blocking even when the source is still active, so `wait`
on a workspace built with `until = None` blocks for no time at all; a truthy
deadline blocks for at most `until - now`. -/
theorem C10_join_falsy_deadline_returns_immediately (st : CVState)
    (untl : Option ℚ) (now : ℚ) (eventIsSet : Bool)
    (hfalsy : pyTruthy untl = false) :
    joinMaxBlock untl now eventIsSet = 0 ∧
    waitMaxBlock st untl now = 0 ∧
    (∀ u n : ℚ, ∀ ev : Bool, joinMaxBlock (some u) n ev ≤ max 0 (u - n)) := by
  refine ⟨?_, ?_, ?_⟩
  · simp [joinMaxBlock, hfalsy]
  · unfold waitMaxBlock
    have h : ∀ i ∈ st.sources, joinMaxBlock untl now
        (((st.srcs[i]?).map Source.eventSet).getD true) = 0 := by
      intro i _
      simp [joinMaxBlock, hfalsy]
    rw [List.sum_eq_zero]
    intro x hx
    obtain ⟨i, hi, rfl⟩ := List.mem_map.mp hx
    exact h i hi
  · intro u n ev
    unfold joinMaxBlock
    split_ifs
    any_goals exact le_max_left 0 (u - n)
    simpa using le_max_right (0 : ℚ) (u - n)

/-- Witness for C10 at a concrete state and deadline. -/
theorem C10_join_falsy_deadline_returns_immediately_witness :
    joinMaxBlock none 3 false = 0 ∧ waitMaxBlock initState none 3 = 0 ∧
    (∀ u n : ℚ, ∀ ev : Bool, joinMaxBlock (some u) n ev ≤ max 0 (u - n)) :=
  C10_join_falsy_deadline_returns_immediately initState none 3 false rfl

/-! ## C6: finish-early -/

lemma finishEarly_finished (st : CVState) : (finishEarly st).finished = true := by
  unfold finishEarly
  split_ifs with h
  · exact h
  · rfl

lemma finishEarly_sources (st : CVState) : (finishEarly st).sources = st.sources := by
  unfold finishEarly
  split_ifs <;> rfl

lemma cancel_cancel (s : Source) : Source.cancel (Source.cancel s) = Source.cancel s := rfl

lemma foldl_modify_cancel_getElem (idxs : List ℕ) (srcs : List Source) (j : ℕ) :
    (idxs.foldl (fun ss i => List.modify Source.cancel i ss) srcs)[j]? =
      if j ∈ idxs then (srcs[j]?).map Source.cancel else srcs[j]? := by
  induction idxs generalizing srcs with
  | nil => simp
  | cons i rest ih =>
    simp only [List.foldl_cons]
    rw [ih]
    by_cases hji : j = i
    · subst hji
      rw [if_pos (List.mem_cons_self j rest)]
      by_cases hjr : j ∈ rest
      · rw [if_pos hjr, List.getElem?_modify_eq]
        cases srcs[j]? <;> simp [cancel_cancel]
      · rw [if_neg hjr, List.getElem?_modify_eq]
        cases srcs[j]? <;> simp
    · rw [List.getElem?_modify_ne Source.cancel srcs (Ne.symm hji)]
      by_cases hjr : j ∈ rest
      · rw [if_pos hjr, if_pos (List.mem_cons_of_mem i hjr)]
      · rw [if_neg hjr, if_neg (by simp [List.mem_cons, hji, hjr])]

lemma finishEarly_srcs_getElem (st : CVState) (hnf : st.finished = false)
    (j : ℕ) (hj : j ∈ st.sources) :
    (finishEarly st).srcs[j]? = (st.srcs[j]?).map Source.cancel := by
  unfold finishEarly
  rw [if_neg (by simp [hnf])]
  simpa using (foldl_modify_cancel_getElem st.sources st.srcs j).trans (if_pos hj)

lemma joinMaxBlock_eventSet (untl : Option ℚ) (now : ℚ) :
    joinMaxBlock untl now true = 0 := by
  unfold joinMaxBlock
  split_ifs <;> simp_all

/-- C6: `_finish_early` is idempotent; when first called (the finished flag is
still down) it cancels every job in the workspace's job list — leaving the
cancelled job's confidence and fingerprint fields exactly as they were, hence
at `0.0` and the empty defaults when the job was still active — sets the
finished flag, and afterwards `wait` can block for no time at all. -/
theorem C6_finish_early_idempotent_and_cancels (st : CVState)
    (hnf : st.finished = false) :
    finishEarly (finishEarly st) = finishEarly st ∧
    (finishEarly st).finished = true ∧
    (∀ j ∈ st.sources, ∀ s, st.srcs[j]? = some s → s.active = true →
      s.confidence = 0 → s.chains = (MChain.EMPTY, MInter.EMPTY_INTERSECTION) →
      (finishEarly st).srcs[j]? = some (Source.cancel s) ∧
      (Source.cancel s).eventSet = true ∧ (Source.cancel s).active = false ∧
      (Source.cancel s).confidence = 0 ∧
      (Source.cancel s).chains = (MChain.EMPTY, MInter.EMPTY_INTERSECTION)) ∧
    (∀ untl : Option ℚ, ∀ now : ℚ, waitMaxBlock (finishEarly st) untl now = 0) := by
  refine ⟨?_, finishEarly_finished st, ?_, ?_⟩
  · conv_lhs => rw [finishEarly]
    rw [if_pos (finishEarly_finished st)]
  · intro j hj s hs hact hconf hchains
    refine ⟨?_, rfl, ?_, ?_, ?_⟩
    · rw [finishEarly_srcs_getElem st hnf j hj, hs]
      rfl
    · simp [Source.cancel, Source.active]
    · simpa [Source.cancel] using hconf
    · simpa [Source.cancel] using hchains
  · intro untl now
    unfold waitMaxBlock
    rw [List.sum_eq_zero]
    intro x hx
    obtain ⟨j, hj, rfl⟩ := List.mem_map.mp hx
    rw [finishEarly_sources] at hj
    rw [finishEarly_srcs_getElem st hnf j hj]
    cases hsj : st.srcs[j]? with
    | none => simpa [hsj] using joinMaxBlock_eventSet untl now
    | some s =>
      simpa [hsj, Source.cancel] using joinMaxBlock_eventSet untl now

/-- A concrete workspace state with one active enqueued source. -/
def exampleState : CVState :=
  { srcs := [mkSource "http://example.com/a" "example.com" [] 5],
    sources := [0], handled := ["http://example.com/a"], finished := false,
    sites := [("example.com", 0)], store := [[0]],
    unassigned := [some ("example.com", 0)] }

/-- Witness for C6 at the concrete state `exampleState`. -/
theorem C6_finish_early_idempotent_and_cancels_witness :
    finishEarly (finishEarly exampleState) = finishEarly exampleState ∧
    (finishEarly exampleState).finished = true ∧
    waitMaxBlock (finishEarly exampleState) (some 10) 3 = 0 :=
  ⟨(C6_finish_early_idempotent_and_cancels exampleState rfl).1,
   (C6_finish_early_idempotent_and_cancels exampleState rfl).2.1,
   (C6_finish_early_idempotent_and_cancels exampleState rfl).2.2.2 (some 10) 3⟩

/-! ## C3: enqueue never appends to the job list -/

/-- The result of enqueueing one fresh URL into a fresh workspace. -/
def enqueueExample : CVState :=
  enqueue (fun _ => "example.com") none [] 5 initState ["http://example.com/a"]

/-- C3 (code bug): enqueueing a fresh, non-excluded URL creates the job
record (`srcs` gains exactly the new source) and inserts it into the registry
(`sites`, `store` and `unassigned` all updated), but the workspace's job list
`sources` stays empty — the loop body of `CopyvioWorkspace.enqueue` has no
`self.sources.append(source)` statement, even though `wait` and
`_finish_early` iterate over `self.sources`. -/
theorem C3_enqueue_never_appends_to_job_list :
    enqueueExample.srcs = [mkSource "http://example.com/a" "example.com" [] 5] ∧
    enqueueExample.handled = ["http://example.com/a"] ∧
    enqueueExample.sites = [("example.com", 0)] ∧
    enqueueExample.store = [[0]] ∧
    enqueueExample.unassigned = [some ("example.com", 0)] ∧
    enqueueExample.sources = [] := by
  refine ⟨rfl, rfl, rfl, rfl, rfl, rfl⟩

/-! ## C7: URL deduplication -/

/-- The URLs of all job records created so far. -/
def srcUrls (st : CVState) : List String := st.srcs.map Source.url

/-- Invariant tying created job records to the `_handled_urls` bookkeeping. -/
def SrcInv (st : CVState) : Prop :=
  (∀ u ∈ srcUrls st, u ∈ st.handled) ∧ (srcUrls st).Nodup

lemma enqueueOne_cases (computeKey : String → String)
    (exclude : Option (String → Bool)) (headers : List (String × String))
    (timeout : ℚ) (st : CVState) (url : String) :
    ((enqueueOne computeKey exclude headers timeout st url).srcs = st.srcs ∧
     ((enqueueOne computeKey exclude headers timeout st url).handled = st.handled ∨
      (enqueueOne computeKey exclude headers timeout st url).handled
        = st.handled ++ [url])) ∨
    (url ∉ st.handled ∧
     (enqueueOne computeKey exclude headers timeout st url).srcs
       = st.srcs ++ [mkSource url (computeKey url) headers timeout] ∧
     (enqueueOne computeKey exclude headers timeout st url).handled
       = st.handled ++ [url]) := by
  unfold enqueueOne
  split_ifs with h1 h2
  · exact Or.inl ⟨rfl, Or.inl rfl⟩
  · exact Or.inl ⟨rfl, Or.inr rfl⟩
  · refine Or.inr ⟨h1, ?_, ?_⟩ <;>
      (cases hls : lookupSite st.sites (computeKey url) <;> simp [hls])

lemma enqueueOne_SrcInv (computeKey : String → String)
    (exclude : Option (String → Bool)) (headers : List (String × String))
    (timeout : ℚ) (st : CVState) (url : String) (h : SrcInv st) :
    SrcInv (enqueueOne computeKey exclude headers timeout st url) := by
  obtain ⟨hsub, hnd⟩ := h
  rcases enqueueOne_cases computeKey exclude headers timeout st url with
    ⟨hsrcs, hh⟩ | ⟨hnot, hsrcs, hh⟩
  · constructor
    · intro u hu
      rw [srcUrls, hsrcs] at hu
      rcases hh with hh | hh <;> rw [hh]
      · exact hsub u hu
      · exact List.mem_append_left _ (hsub u hu)
    · rw [srcUrls, hsrcs]; exact hnd
  · have hurls : srcUrls (enqueueOne computeKey exclude headers timeout st url)
        = srcUrls st ++ [url] := by
      rw [srcUrls, hsrcs, List.map_append]
      rfl
    constructor
    · intro u hu
      rw [hurls] at hu
      rw [hh]
      rcases List.mem_append.mp hu with hu | hu
      · exact List.mem_append_left _ (hsub u hu)
      · exact List.mem_append_right _ hu
    · rw [hurls]
      have hnu : url ∉ srcUrls st := fun hc => hnot (hsub url hc)
      simp [List.nodup_append, hnd, hnu]

lemma enqueue_SrcInv (computeKey : String → String)
    (exclude : Option (String → Bool)) (headers : List (String × String))
    (timeout : ℚ) :
    ∀ (urls : List String) (st : CVState), SrcInv st →
      SrcInv (enqueue computeKey exclude headers timeout st urls) := by
  intro urls
  induction urls with
  | nil => intro st h; exact h
  | cons url rest ih =>
    intro st h
    rw [enqueue]
    split_ifs with hf
    · exact h
    · exact ih _ (enqueueOne_SrcInv computeKey exclude headers timeout st url h)

lemma runEnqueues_SrcInv (calls : List EnqueueCall) : SrcInv (runEnqueues calls) := by
  suffices h : ∀ (cs : List EnqueueCall) (st : CVState), SrcInv st →
      SrcInv (cs.foldl
        (fun s c => enqueue c.computeKey c.exclude c.headers c.timeout s c.urls) st) by
    exact h calls initState
      ⟨fun u hu => by simp [srcUrls, initState] at hu, List.nodup_nil⟩
  intro cs
  induction cs with
  | nil => intro st h; exact h
  | cons c rest ih =>
    intro st h
    exact ih _ (enqueue_SrcInv c.computeKey c.exclude c.headers c.timeout c.urls st h)

/-- C7: across any sequence of `enqueue` calls against one check, at most one
job record is ever created per distinct URL: the URLs of all created records
are pairwise distinct, because a URL is recorded in `_handled_urls` when first
seen and later occurrences are skipped. -/
theorem C7_enqueue_deduplicates_urls (calls : List EnqueueCall) :
    (srcUrls (runEnqueues calls)).Nodup :=
  (runEnqueues_SrcInv calls).2

/-! ## C5: the content-length filter of `_CopyvioWorker._open_url` -/

/-- An HTTP response as `_open_url` observes it: the header mapping, the body
returned by `response.read()`, and whether that read raises. -/
structure HTTPResponse where
  headers : List (String × String)
  body : String
  readFails : Bool

/-- Model of `response.headers.get(key)`. -/
def headersGet (hs : List (String × String)) (key : String) : Option String :=
  (hs.find? (fun p => p.1 == key)).map (fun p => p.2)

/-- Surrounding-whitespace stripping on a character list (the effect of
Python `str.strip()`), written structurally so that it evaluates. -/
def pyStripChars (cs : List Char) : List Char :=
  ((cs.dropWhile Char.isWhitespace).reverse.dropWhile Char.isWhitespace).reverse

/-- Model of Python `str.strip()`. -/
def pyStrip (s : String) : String := String.mk (pyStripChars s.data)

/-- Model of Python `int(s)` on a string: strip surrounding whitespace, allow
one leading sign, then require at least one digit; anything else raises
`ValueError`, modelled as `none`. -/
def pyIntOfString (s : String) : Option ℤ :=
  let t := pyStripChars s.data
  let core := if t.headD ' ' = '-' ∨ t.headD ' ' = '+' then t.tail else t
  if core ≠ [] ∧ core.all Char.isDigit then
    some (let n : ℕ := core.foldl (fun acc c => acc * 10 + (c.toNat - 48)) 0
          if t.headD ' ' = '-' then -(n : ℤ) else (n : ℤ))
  else none

/-- Embedding of `_CopyvioWorker._open_url` from the response on: `none` input
models a `URLError`/`socket.error` from `opener.open`.  The declared content
length defaults to the integer `0` when the header is absent
(`headers.get("Content-Length", 0)`); an unparseable value raises `ValueError`,
caught and turned into `None`; a parsed size above `1024 ** 2` returns `None`.
Then the handler is picked by content type (HTML handler `htmlStrip` or
`str.strip` for plain text, `None` otherwise), the body is read (a failing
read returns `None`), gzip-encoded bodies are decompressed by the external
`gunzip` (failure returns `None`), and the handler is applied. -/
def openURL (htmlStrip : String → String) (gunzip : String → Option String)
    (resp : Option HTTPResponse) : Option String :=
  match resp with
  | none => none
  | some r =>
    let sizeResult : Option ℤ :=
      match headersGet r.headers "Content-Length" with
      | none => some 0
      | some s => pyIntOfString s
    match sizeResult with
    | none => none
    | some size =>
      if 1024 ^ 2 < size then none
      else
        let ctypeFull := (headersGet r.headers "Content-Type").getD "text/plain"
        let ctype := String.mk (ctypeFull.data.takeWhile (fun c => c ≠ ';'))
        let handlerKind : Option Bool :=
          if ctype = "text/html" ∨ ctype = "application/xhtml+xml" then some true
          else if ctype = "text/plain" then some false
          else none
        match handlerKind with
        | none => none
        | some isHtml =>
          if r.readFails then none
          else
            let contentResult : Option String :=
              if headersGet r.headers "Content-Encoding" = some "gzip" then
                gunzip r.body
              else some r.body
            match contentResult with
            | none => none
            | some content =>
              some (if isHtml then htmlStrip content else pyStrip content)

/-- C5 counterexample: a plain-text response with no `Content-Length` header
at all is accepted, not rejected — the code defaults the absent header to the
integer `0`, which passes the size check, and the body is returned. -/
theorem C5_counterexample_absent_length_accepted :
    headersGet [("Content-Type", "text/plain")] "Content-Length" = none ∧
    openURL id (fun _ => none)
      (some { headers := [("Content-Type", "text/plain")],
              body := "hello world", readFails := false })
      = some "hello world" :=
  ⟨rfl, by decide⟩

/-- C5 (amended): `_open_url` returns `None` whenever the response carries a
`Content-Length` header that is unparseable as an integer, or one that parses
to a value exceeding `1024 ** 2` bytes; in both cases no exception escapes
(the `ValueError` is caught).  An absent header is treated as a declared
length of `0` and is accepted. -/
theorem C5_open_url_rejects_unparseable_or_oversize
    (htmlStrip : String → String) (gunzip : String → Option String)
    (r : HTTPResponse) (s : String)
    (hs : headersGet r.headers "Content-Length" = some s) :
    (pyIntOfString s = none → openURL htmlStrip gunzip (some r) = none) ∧
    (∀ n : ℤ, pyIntOfString s = some n → 1024 ^ 2 < n →
      openURL htmlStrip gunzip (some r) = none) := by
  constructor
  · intro hparse
    simp only [openURL, hs, hparse]
  · intro n hparse hbig
    simp only [openURL, hs, hparse, if_pos hbig]

/-- Witness for C5 at concrete responses: an unparseable and an oversize
declared content length are both rejected. -/
theorem C5_open_url_rejects_unparseable_or_oversize_witness :
    openURL id (fun _ => none)
      (some { headers := [("Content-Length", "abc")], body := "x",
              readFails := false }) = none ∧
    openURL id (fun _ => none)
      (some { headers := [("Content-Length", "2000000")], body := "x",
              readFails := false }) = none :=
  ⟨(C5_open_url_rejects_unparseable_or_oversize id (fun _ => none)
      { headers := [("Content-Length", "abc")], body := "x", readFails := false }
      "abc" rfl).1 rfl,
   (C5_open_url_rejects_unparseable_or_oversize id (fun _ => none)
      { headers := [("Content-Length", "2000000")], body := "x", readFails := false }
      "2000000" rfl).2 2000000 rfl (by norm_num)⟩

/-! ## C4: the worker's compare callback -/

/-- A Python-level error raised by attribute access. -/
inductive PyErr
  | attributeError
deriving DecidableEq

/-- The instance attributes assigned by `_CopyvioSource.__init__` — and, since
no other code assigns attributes on sources, the only attributes a
`_CopyvioSource` object ever has.  Note the workspace back reference is stored
under the name `_workspace`. -/
def sourceAttrNames : List String :=
  ["url", "key", "headers", "timeout", "confidence", "chains",
   "_workspace", "_event"]

/-- Model of the tail of `_CopyvioWorker._run`'s loop body once `_dequeue` has
returned the active job `src` and `_open_url` has produced `text`: when the
text is truthy the code evaluates `source.workspace.compare(source,
MarkovChain(text))`.  The attribute lookup `source.workspace` succeeds exactly
when `"workspace"` is among the source's attributes; on success the compare
call is recorded with its arguments, otherwise `AttributeError` is raised.
When the text is `None` (or empty, hence falsy) nothing happens and the job is
left untouched. -/
def runHandleText (src : Source) (text : Option String) :
    Except PyErr (Option (Source × MChain)) :=
  match text with
  | none => Except.ok none
  | some t =>
    if t = "" then Except.ok none
    else if "workspace" ∈ sourceAttrNames then
      Except.ok (some (src, MChain.ofText t))
    else Except.error PyErr.attributeError

/-- C4 (code bug): a worker that fetched nonempty text for a job never reaches
`CopyvioWorkspace.compare`: the access `source.workspace` raises
`AttributeError` because `_CopyvioSource.__init__` stores the workspace under
`_workspace` and defines no `workspace` attribute.  A fetch that yields no
text leaves the job untouched, as the claim states. -/
theorem C4_worker_compare_call_raises_attribute_error (src : Source)
    (t : String) (ht : t ≠ "") :
    runHandleText src (some t) = Except.error PyErr.attributeError ∧
    runHandleText src none = Except.ok none := by
  constructor
  · simp only [runHandleText]
    rw [if_neg ht, if_neg (show ¬("workspace" ∈ sourceAttrNames) by decide)]
  · rfl

/-- Witness for C4 at a concrete source and fetched text. -/
theorem C4_worker_compare_call_raises_attribute_error_witness :
    runHandleText (mkSource "http://example.com/a" "example.com" [] 5)
      (some "hello") = Except.error PyErr.attributeError ∧
    runHandleText (mkSource "http://example.com/a" "example.com" [] 5)
      none = Except.ok none :=
  C4_worker_compare_call_raises_attribute_error
    (mkSource "http://example.com/a" "example.com" [] 5) "hello" (by decide)

/-! ## C9: constructing a workspace with a private pool -/

/-- The instance attributes assigned by `CopyvioWorkspace.__init__` before the
branch on `_is_globalized`. -/
def workspaceInitAttrNames : List String :=
  ["best", "sources", "_article", "_logger", "_min_confidence", "_until",
   "_handled_urls", "_is_finished", "_compare_lock", "_source_args"]

/-- Model of the worker-spawning loop of `CopyvioWorkspace.__init__` in the
non-globalized branch: each iteration creates and starts a `_CopyvioWorker`
and then executes `self._workers.append(worker)`, which first looks up the
attribute `_workers` on the workspace; the loop either completes (returning
the attribute set unchanged, appends mutate in place) or raises
`AttributeError` on the first failed lookup. -/
def initLocalWorkersLoop (attrs : List String) : ℕ → Except PyErr (List String)
  | 0 => Except.ok attrs
  | n + 1 =>
    if "_workers" ∈ attrs then initLocalWorkersLoop attrs n
    else Except.error PyErr.attributeError

/-- Model of `CopyvioWorkspace.__init__` when the global pool is inactive:
after the common assignments it assigns `self._queues` (a fresh private
`_CopyvioQueues`) and runs the worker loop with `num_workers` iterations.
The globalized branch's `self._workers = _global_workers` assignment is never
executed, so `_workers` is not among the attributes. -/
def workspaceInitLocal (numWorkers : ℕ) : Except PyErr (List String) :=
  initLocalWorkersLoop (workspaceInitAttrNames ++ ["_queues"]) numWorkers

/-- C9 (code bug): constructing a `CopyvioWorkspace` while the global pool is
inactive raises `AttributeError` for every positive worker count (including
the default `num_workers = 8`): the non-globalized branch of `__init__` runs
`self._workers.append(worker)` without ever having assigned `self._workers`. -/
theorem C9_local_workspace_construction_raises (n : ℕ) (hn : 0 < n) :
    workspaceInitLocal n = Except.error PyErr.attributeError ∧
    workspaceInitLocal 8 = Except.error PyErr.attributeError := by
  constructor
  · obtain ⟨m, rfl⟩ := Nat.exists_eq_succ_of_ne_zero (Nat.pos_iff_ne_zero.mp hn)
    unfold workspaceInitLocal initLocalWorkersLoop
    rw [if_neg (by decide)]
  · unfold workspaceInitLocal initLocalWorkersLoop
    rw [if_neg (by decide)]

/-- Witness for C9 at the default worker count. -/
theorem C9_local_workspace_construction_raises_witness :
    workspaceInitLocal 8 = Except.error PyErr.attributeError :=
  (C9_local_workspace_construction_raises 8 (by decide)).2

/-! ## C8: the queue-registry invariant -/

/-- Per-worker scheduling state of `_CopyvioWorker`: the domain key it is
working on (`_site`) and the queue it owns (`_queue`, by queue id).
`wqueue = none` means the worker owns no queue; `_dequeue` clears only
`_queue` on release, so `wsite` may then hold a stale key. -/
structure WorkerSt where
  wsite : Option String
  wqueue : Option ℕ

/-- Whether the source with id `sid` is still active (`source.active()`). -/
def srcActive (st : CVState) (sid : ℕ) : Bool :=
  match st.srcs[sid]? with
  | some s => s.active
  | none => false

/-- Result of one attempt of `_CopyvioWorker._dequeue`: the `get` call would
block (no work yet), `get_nowait` raised `Empty`, the stop token was drawn,
a source was obtained, or an inactive source was discarded (the code then
recurses). -/
inductive DeqResult
  | blocked
  | raisedEmpty
  | stop
  | got (sid : ℕ)
  | retry
deriving DecidableEq

/-- One attempt of `_CopyvioWorker._dequeue` under the registry lock.  If the
worker owns a queue, pop its front; when that empties the queue, delete the
worker's `_site` key from `sites` and clear `_queue`.  Otherwise pop the next
dispatch entry from `unassigned` (a stop token ends the worker), pop one
source from that queue with `get_nowait`, delete the site entry when the queue
is now empty or else claim `(site, queue)`.  Finally an inactive source is
discarded (`retry`). -/
def dequeueOnce (st : CVState) (w : WorkerSt) : DeqResult × CVState × WorkerSt :=
  match w.wqueue with
  | some qid =>
    match qget st.store qid with
    | [] => (DeqResult.blocked, st, w)
    | sid :: rest =>
      let st1 := { st with store := st.store.set qid rest }
      let stw :=
        if rest.isEmpty then
          ({ st1 with sites := delSite st1.sites (w.wsite.getD "") },
           { w with wqueue := none })
        else (st1, w)
      ((if srcActive stw.1 sid then DeqResult.got sid else DeqResult.retry),
       stw.1, stw.2)
  | none =>
    match st.unassigned with
    | [] => (DeqResult.blocked, st, w)
    | none :: rest => (DeqResult.stop, { st with unassigned := rest }, w)
    | some (site, qid) :: rest =>
      let st0 := { st with unassigned := rest }
      match qget st0.store qid with
      | [] => (DeqResult.raisedEmpty, st0, w)
      | sid :: q =>
        let st1 := { st0 with store := st0.store.set qid q }
        let stw :=
          if q.isEmpty then
            ({ st1 with sites := delSite st1.sites site }, w)
          else (st1, { w with wsite := some site, wqueue := some qid })
        ((if srcActive stw.1 sid then DeqResult.got sid else DeqResult.retry),
         stw.1, stw.2)

/-- The key a worker currently claims: its `_site` when it owns a queue. -/
def claimedKey (w : WorkerSt) : Option String :=
  match w.wqueue with
  | some _ => w.wsite
  | none => none

/-- Two workers never claim the same domain key. -/
def ClaimDisj (w1 w2 : WorkerSt) : Prop :=
  ∀ k, claimedKey w1 = some k → claimedKey w2 ≠ some k

/-- The queue-registry invariant (C8 and its supporting facts): domain keys
and queue ids in `sites` are unique; every `sites` entry points at an
in-range, non-empty queue (so a key is present only while work remains or its
claimant is between pops); a worker owning a queue records a key mapped to
that queue; every dispatch-queue pair is a live, unclaimed `sites` entry;
dispatch-pair keys are unique; and claims are pairwise disjoint. -/
structure QInv (st : CVState) (ws : List WorkerSt) : Prop where
  keysNodup : (st.sites.map Prod.fst).Nodup
  qidsNodup : (st.sites.map Prod.snd).Nodup
  sitesOK : ∀ p ∈ st.sites, p.2 < st.store.length ∧ qget st.store p.2 ≠ []
  claimOK : ∀ w ∈ ws, ∀ qid, w.wqueue = some qid →
    ∃ k, w.wsite = some k ∧ (k, qid) ∈ st.sites
  unassignedOK : ∀ p : String × ℕ, some p ∈ st.unassigned →
    p ∈ st.sites ∧ ∀ w ∈ ws, claimedKey w ≠ some p.1
  unassignedNodup : ((st.unassigned.filterMap id).map Prod.fst).Nodup
  claimsDisjoint : List.Pairwise ClaimDisj ws

/-- One registry-mutating step: the workspace enqueues one URL, or one worker
runs one `_dequeue` attempt. -/
inductive QStep : CVState × List WorkerSt → CVState × List WorkerSt → Prop
  | enq (computeKey : String → String) (exclude : Option (String → Bool))
      (headers : List (String × String)) (timeout : ℚ) (st : CVState)
      (ws : List WorkerSt) (url : String) :
      QStep (st, ws) (enqueueOne computeKey exclude headers timeout st url, ws)
  | deq (st : CVState) (pre post : List WorkerSt) (w : WorkerSt) :
      QStep (st, pre ++ w :: post)
        ((dequeueOnce st w).2.1, pre ++ (dequeueOnce st w).2.2 :: post)

lemma lookupSite_eq_none {sites : List (String × ℕ)} {key : String}
    (h : lookupSite sites key = none) : ∀ q : ℕ, (key, q) ∉ sites := by
  intro q hq
  unfold lookupSite at h
  rw [Option.map_eq_none', List.find?_eq_none] at h
  exact absurd (by simp : ((key, q) : String × ℕ).1 == key) (h _ hq)

lemma lookupSite_mem {sites : List (String × ℕ)} {key : String} {q : ℕ}
    (h : lookupSite sites key = some q) : (key, q) ∈ sites := by
  unfold lookupSite at h
  rw [Option.map_eq_some'] at h
  obtain ⟨p, hp, hpq⟩ := h
  have h1 := List.find?_some hp
  have h2 := List.mem_of_find?_eq_some hp
  rw [beq_iff_eq] at h1
  rw [show ((key, q) : String × ℕ) = p from Prod.ext h1.symm hpq.symm]
  exact h2

lemma mem_delSite {sites : List (String × ℕ)} {key : String} {p : String × ℕ} :
    p ∈ delSite sites key ↔ p ∈ sites ∧ p.1 ≠ key := by
  unfold delSite
  rw [List.mem_filter]
  simp

lemma lookupSite_delSite (sites : List (String × ℕ)) (key : String) :
    lookupSite (delSite sites key) key = none := by
  unfold lookupSite
  rw [Option.map_eq_none', List.find?_eq_none]
  intro p hp
  rcases mem_delSite.mp hp with ⟨_, hne⟩
  simpa using hne

lemma delSite_map_sublist (sites : List (String × ℕ)) (key : String)
    (f : String × ℕ → β) :
    ((delSite sites key).map f).Sublist (sites.map f) :=
  (List.filter_sublist sites).map f

lemma qget_set_self {store : List (List ℕ)} {qid : ℕ} (h : qid < store.length)
    (l : List ℕ) : qget (store.set qid l) qid = l := by
  unfold qget
  rw [List.getElem?_set_self h]
  rfl

lemma qget_set_ne {store : List (List ℕ)} {qid q' : ℕ} (h : q' ≠ qid)
    (l : List ℕ) : qget (store.set qid l) q' = qget store q' := by
  unfold qget
  rw [List.getElem?_set_ne (Ne.symm h)]

lemma qget_append_lt {store : List (List ℕ)} {qid : ℕ} (h : qid < store.length)
    (l : List ℕ) : qget (store ++ [l]) qid = qget store qid := by
  unfold qget
  rw [List.getElem?_append_left h]

lemma qget_append_self (store : List (List ℕ)) (l : List ℕ) :
    qget (store ++ [l]) store.length = l := by
  unfold qget
  rw [List.getElem?_append_right (le_refl _)]
  simp

lemma inj_of_snd_nodup {l : List (String × ℕ)} (h : (l.map Prod.snd).Nodup)
    {p q : String × ℕ} (hp : p ∈ l) (hq : q ∈ l) (he : p.2 = q.2) : p = q :=
  List.inj_on_of_nodup_map h hp hq he

lemma inj_of_fst_nodup {l : List (String × ℕ)} (h : (l.map Prod.fst).Nodup)
    {p q : String × ℕ} (hp : p ∈ l) (hq : q ∈ l) (he : p.1 = q.1) : p = q :=
  List.inj_on_of_nodup_map h hp hq he

lemma claimDisj_symm {w1 w2 : WorkerSt} (h : ClaimDisj w1 w2) : ClaimDisj w2 w1 := by
  intro k h2 h1
  exact h k h1 h2

lemma pairwise_middle {R : α → α → Prop} {pre post : List α} {w : α} (w' : α)
    (h : (pre ++ w :: post).Pairwise R)
    (h1 : ∀ x ∈ pre, R x w') (h2 : ∀ x ∈ post, R w' x) :
    (pre ++ w' :: post).Pairwise R := by
  rw [List.pairwise_append] at h ⊢
  obtain ⟨hpre, hcons, hcross⟩ := h
  rw [List.pairwise_cons] at hcons ⊢
  refine ⟨hpre, ⟨h2, hcons.2⟩, ?_⟩
  intro a ha b hb
  rcases List.mem_cons.mp hb with rfl | hb
  · exact h1 a ha
  · exact hcross a ha b (List.mem_cons_of_mem _ hb)

lemma enqueueOne_registry_cases (c : String → String) (e : Option (String → Bool))
    (hd : List (String × String)) (t : ℚ) (st : CVState) (url : String) :
    ((enqueueOne c e hd t st url).sites = st.sites ∧
     (enqueueOne c e hd t st url).store = st.store ∧
     (enqueueOne c e hd t st url).unassigned = st.unassigned) ∨
    (∃ qid, lookupSite st.sites (c url) = some qid ∧
      (enqueueOne c e hd t st url).sites = st.sites ∧
      (enqueueOne c e hd t st url).unassigned = st.unassigned ∧
      (enqueueOne c e hd t st url).store
        = st.store.set qid (qget st.store qid ++ [st.srcs.length])) ∨
    (lookupSite st.sites (c url) = none ∧
      (enqueueOne c e hd t st url).sites = st.sites ++ [(c url, st.store.length)] ∧
      (enqueueOne c e hd t st url).store = st.store ++ [[st.srcs.length]] ∧
      (enqueueOne c e hd t st url).unassigned
        = st.unassigned ++ [some (c url, st.store.length)]) := by
  unfold enqueueOne
  split_ifs with h1 h2
  · exact Or.inl ⟨rfl, rfl, rfl⟩
  · exact Or.inl ⟨rfl, rfl, rfl⟩
  · cases hls : lookupSite st.sites (c url) with
    | none => exact Or.inr (Or.inr ⟨rfl, by simp [hls], by simp [hls], by simp [hls]⟩)
    | some qid => exact Or.inr (Or.inl ⟨qid, rfl, by simp [hls], by simp [hls], by simp [hls]⟩)

lemma enqueueOne_preserves_QInv (c : String → String) (e : Option (String → Bool))
    (hd : List (String × String)) (t : ℚ) (st : CVState) (ws : List WorkerSt)
    (url : String) (hInv : QInv st ws) :
    QInv (enqueueOne c e hd t st url) ws := by
  obtain ⟨hk, hq, hs, hcl, hu, hn, hdj⟩ := hInv
  rcases enqueueOne_registry_cases c e hd t st url with
    ⟨h1, h2, h3⟩ | ⟨qid, hls, h1, h3, h2⟩ | ⟨hls, h1, h2, h3⟩
  · refine ⟨?_, ?_, ?_, ?_, ?_, ?_, hdj⟩
    · rw [h1]; exact hk
    · rw [h1]; exact hq
    · rw [h1, h2]; exact hs
    · intro w hw qid hwq
      rw [h1]; exact hcl w hw qid hwq
    · intro p hp
      rw [h3] at hp
      rw [h1]; exact hu p hp
    · rw [h3]; exact hn
  · have hmem : (c url, qid) ∈ st.sites := lookupSite_mem hls
    have hlt : qid < st.store.length := (hs _ hmem).1
    refine ⟨?_, ?_, ?_, ?_, ?_, ?_, hdj⟩
    · rw [h1]; exact hk
    · rw [h1]; exact hq
    · intro p hp
      rw [h1] at hp
      rw [h2, List.length_set]
      refine ⟨(hs p hp).1, ?_⟩
      by_cases hpq : p.2 = qid
      · rw [hpq, qget_set_self hlt]
        simp
      · rw [qget_set_ne hpq]
        exact (hs p hp).2
    · intro w hw qid2 hwq
      rw [h1]; exact hcl w hw qid2 hwq
    · intro p hp
      rw [h3] at hp
      rw [h1]; exact hu p hp
    · rw [h3]; exact hn
  · have hknotin : ∀ q : ℕ, (c url, q) ∉ st.sites := lookupSite_eq_none hls
    have hkeyfst : c url ∉ st.sites.map Prod.fst := by
      intro hc
      obtain ⟨p, hp, hpe⟩ := List.mem_map.mp hc
      exact hknotin p.2 (by rw [show ((c url, p.2) : String × ℕ) = p from Prod.ext hpe.symm rfl]; exact hp)
    refine ⟨?_, ?_, ?_, ?_, ?_, ?_, hdj⟩
    · rw [h1, List.map_append]
      simp only [List.map_cons, List.map_nil]
      rw [List.nodup_append]
      exact ⟨hk, List.nodup_singleton _, by simpa using fun hc => hkeyfst hc⟩
    · rw [h1, List.map_append]
      simp only [List.map_cons, List.map_nil]
      rw [List.nodup_append]
      refine ⟨hq, List.nodup_singleton _, ?_⟩
      intro a ha
      simp only [List.mem_singleton]
      obtain ⟨p, hp, hpe⟩ := List.mem_map.mp ha
      intro hae
      rw [hae] at hpe
      exact absurd ((hs p hp).1) (by rw [hpe]; exact lt_irrefl _)
    · intro p hp
      rw [h1] at hp
      rw [h2, List.length_append, List.length_cons, List.length_nil]
      rcases List.mem_append.mp hp with hp | hp
      · refine ⟨Nat.lt_succ_of_lt (hs p hp).1, ?_⟩
        rw [qget_append_lt (hs p hp).1]
        exact (hs p hp).2
      · rw [List.mem_singleton] at hp
        subst hp
        refine ⟨Nat.lt_succ_self _, ?_⟩
        rw [qget_append_self]
        simp
    · intro w hw qid2 hwq
      obtain ⟨k, hws, hmem⟩ := hcl w hw qid2 hwq
      exact ⟨k, hws, by rw [h1]; exact List.mem_append_left _ hmem⟩
    · intro p hp
      rw [h3] at hp
      rcases List.mem_append.mp hp with hp | hp
      · obtain ⟨hmem, hclm⟩ := hu p hp
        exact ⟨by rw [h1]; exact List.mem_append_left _ hmem, hclm⟩
      · rw [List.mem_singleton, Option.some_inj] at hp
        subst hp
        refine ⟨by rw [h1]; exact List.mem_append_right _ (List.mem_singleton_self _), ?_⟩
        intro w hw hclm
        obtain ⟨qw, hqw⟩ : ∃ qw, w.wqueue = some qw := by
          unfold claimedKey at hclm
          cases hwq : w.wqueue with
          | none => rw [hwq] at hclm; exact absurd hclm (by simp)
          | some q2 => exact ⟨q2, rfl⟩
        obtain ⟨k, hws, hmem⟩ := hcl w hw qw hqw
        have : claimedKey w = some k := by unfold claimedKey; rw [hqw, hws]
        rw [this, Option.some_inj] at hclm
        subst hclm
        exact hkeyfst (List.mem_map_of_mem Prod.fst hmem)
    · rw [h3, List.filterMap_append]
      simp only [List.filterMap_cons, List.filterMap_nil, id]
      rw [List.map_append]
      simp only [List.map_cons, List.map_nil]
      rw [List.nodup_append]
      refine ⟨hn, List.nodup_singleton _, ?_⟩
      intro a ha
      simp only [List.mem_singleton]
      intro hae
      subst hae
      obtain ⟨p, hp, hpe⟩ := List.mem_map.mp ha
      have hpu : some p ∈ st.unassigned := by
        rcases List.mem_filterMap.mp hp with ⟨o, ho, hoe⟩
        simp only [id] at hoe
        subst hoe
        exact ho
      obtain ⟨hmem, _⟩ := hu p hpu
      rw [← hpe] at hkeyfst
      exact hkeyfst (List.mem_map_of_mem Prod.fst hmem)

lemma claimedKey_eq {x : WorkerSt} {q : ℕ} {k : String}
    (hq : x.wqueue = some q) (hk : x.wsite = some k) : claimedKey x = some k := by
  unfold claimedKey
  rw [hq, hk]

lemma claimedKey_some {x : WorkerSt} {k : String} (h : claimedKey x = some k) :
    ∃ q, x.wqueue = some q ∧ x.wsite = some k := by
  unfold claimedKey at h
  cases hq : x.wqueue with
  | none => rw [hq] at h; simp at h
  | some q => rw [hq] at h; exact ⟨q, rfl, h⟩

lemma mem_middle_cases {x w : α} {pre post : List α} (h : x ∈ pre ++ w :: post) :
    x ∈ pre ∨ x = w ∨ x ∈ post := by
  rcases List.mem_append.mp h with h | h
  · exact Or.inl h
  · rcases List.mem_cons.mp h with h | h
    · exact Or.inr (Or.inl h)
    · exact Or.inr (Or.inr h)

lemma mem_middle_of_side {x w : α} {pre post : List α} (h : x ∈ pre ∨ x ∈ post) :
    x ∈ pre ++ w :: post := by
  rcases h with h | h
  · exact List.mem_append_left _ h
  · exact List.mem_append_right _ (List.mem_cons_of_mem _ h)

lemma self_mem_middle (w : α) (pre post : List α) : w ∈ pre ++ w :: post :=
  List.mem_append_right _ (List.mem_cons_self _ _)

lemma claims_unique_middle {pre post : List WorkerSt} {w x : WorkerSt}
    (hdj : (pre ++ w :: post).Pairwise ClaimDisj)
    (hx : x ∈ pre ∨ x ∈ post) {k : String}
    (hwk : claimedKey w = some k) (hxk : claimedKey x = some k) : False := by
  rw [List.pairwise_append] at hdj
  obtain ⟨_, hcons, hcross⟩ := hdj
  rcases hx with hx | hx
  · exact hcross x hx w (List.mem_cons_self _ _) k hxk hwk
  · rw [List.pairwise_cons] at hcons
    exact hcons.1 x hx k hwk hxk

lemma unassigned_head_key_not_in_rest {site : String} {qid : ℕ}
    {rest : List (Option (String × ℕ))}
    (hn : (((some (site, qid) :: rest).filterMap id).map Prod.fst).Nodup) :
    ∀ p : String × ℕ, some p ∈ rest → p.1 ≠ site := by
  have heq : List.filterMap id (some (site, qid) :: rest)
      = (site, qid) :: List.filterMap id rest := by simp
  rw [heq, List.map_cons, List.nodup_cons] at hn
  intro p hp he
  have hpmem : p ∈ rest.filterMap id := List.mem_filterMap.mpr ⟨some p, hp, rfl⟩
  have hm : p.1 ∈ (rest.filterMap id).map Prod.fst :=
    List.mem_map_of_mem Prod.fst hpmem
  rw [he] at hm
  exact hn.1 hm

lemma dequeueOnce_shape (st : CVState) (w : WorkerSt) :
    (∃ qid, w.wqueue = some qid ∧ qget st.store qid = [] ∧
      (dequeueOnce st w).2.1 = st ∧ (dequeueOnce st w).2.2 = w) ∨
    (w.wqueue = none ∧ st.unassigned = [] ∧
      (dequeueOnce st w).2.1 = st ∧ (dequeueOnce st w).2.2 = w) ∨
    (∃ rest, w.wqueue = none ∧ st.unassigned = none :: rest ∧
      (dequeueOnce st w).2.1 = { st with unassigned := rest } ∧
      (dequeueOnce st w).2.2 = w) ∨
    (∃ qid sid r0 rtail, w.wqueue = some qid ∧
      qget st.store qid = sid :: r0 :: rtail ∧
      (dequeueOnce st w).2.1 = { st with store := st.store.set qid (r0 :: rtail) } ∧
      (dequeueOnce st w).2.2 = w) ∨
    (∃ qid sid, w.wqueue = some qid ∧ qget st.store qid = [sid] ∧
      (dequeueOnce st w).2.1 = { st with
        store := st.store.set qid [],
        sites := delSite st.sites (w.wsite.getD "") } ∧
      (dequeueOnce st w).2.2 = { w with wqueue := none }) ∨
    (∃ site qid rest, w.wqueue = none ∧
      st.unassigned = some (site, qid) :: rest ∧ qget st.store qid = [] ∧
      (dequeueOnce st w).2.1 = { st with unassigned := rest } ∧
      (dequeueOnce st w).2.2 = w) ∨
    (∃ site qid sid rest, w.wqueue = none ∧
      st.unassigned = some (site, qid) :: rest ∧ qget st.store qid = [sid] ∧
      (dequeueOnce st w).2.1 = { st with
        unassigned := rest,
        store := st.store.set qid [], sites := delSite st.sites site } ∧
      (dequeueOnce st w).2.2 = w) ∨
    (∃ site qid sid q0 qtail rest, w.wqueue = none ∧
      st.unassigned = some (site, qid) :: rest ∧
      qget st.store qid = sid :: q0 :: qtail ∧
      (dequeueOnce st w).2.1 = { st with
        unassigned := rest,
        store := st.store.set qid (q0 :: qtail) } ∧
      (dequeueOnce st w).2.2 = { wsite := some site, wqueue := some qid }) := by
  cases hwq : w.wqueue with
  | some qid =>
    cases hq : qget st.store qid with
    | nil =>
      exact Or.inl ⟨qid, rfl, hq, by simp [dequeueOnce, hwq, hq],
        by simp [dequeueOnce, hwq, hq]⟩
    | cons sid rest =>
      cases rest with
      | nil =>
        refine Or.inr (Or.inr (Or.inr (Or.inr (Or.inl
          ⟨qid, sid, rfl, hq, ?_, ?_⟩)))) <;>
          simp [dequeueOnce, hwq, hq]
      | cons r0 rtail =>
        refine Or.inr (Or.inr (Or.inr (Or.inl
          ⟨qid, sid, r0, rtail, rfl, hq, ?_, ?_⟩))) <;>
          simp [dequeueOnce, hwq, hq]
  | none =>
    cases hun : st.unassigned with
    | nil =>
      exact Or.inr (Or.inl ⟨rfl, rfl, by simp [dequeueOnce, hwq, hun],
        by simp [dequeueOnce, hwq, hun]⟩)
    | cons o rest =>
      cases o with
      | none =>
        refine Or.inr (Or.inr (Or.inl ⟨rest, rfl, rfl, ?_, ?_⟩)) <;>
          simp [dequeueOnce, hwq, hun]
      | some p =>
        obtain ⟨site, qid⟩ := p
        cases hq : qget st.store qid with
        | nil =>
          refine Or.inr (Or.inr (Or.inr (Or.inr (Or.inr (Or.inl
            ⟨site, qid, rest, rfl, rfl, hq, ?_, ?_⟩))))) <;>
            simp [dequeueOnce, hwq, hun, hq]
        | cons sid q =>
          cases q with
          | nil =>
            refine Or.inr (Or.inr (Or.inr (Or.inr (Or.inr (Or.inr (Or.inl
              ⟨site, qid, sid, rest, rfl, rfl, hq, ?_, ?_⟩)))))) <;>
              simp [dequeueOnce, hwq, hun, hq]
          | cons q0 qtail =>
            refine Or.inr (Or.inr (Or.inr (Or.inr (Or.inr (Or.inr (Or.inr
              ⟨site, qid, sid, q0, qtail, rest, rfl, rfl, hq, ?_, ?_⟩)))))) <;>
              simp [dequeueOnce, hwq, hun, hq]

lemma unassigned_nodup_tail {o : Option (String × ℕ)}
    {rest : List (Option (String × ℕ))}
    (hn : (((o :: rest).filterMap id).map Prod.fst).Nodup) :
    ((rest.filterMap id).map Prod.fst).Nodup := by
  cases o with
  | none => simpa using hn
  | some p =>
    have heq : List.filterMap id (some p :: rest) = p :: List.filterMap id rest := by
      simp
    rw [heq, List.map_cons, List.nodup_cons] at hn
    exact hn.2

lemma dequeueOnce_preserves_QInv (st : CVState) (pre post : List WorkerSt)
    (w : WorkerSt) (hInv : QInv st (pre ++ w :: post)) :
    QInv (dequeueOnce st w).2.1 (pre ++ (dequeueOnce st w).2.2 :: post) := by
  obtain ⟨hk, hq2, hs, hcl, hu, hn, hdj⟩ := hInv
  rcases dequeueOnce_shape st w with
    ⟨qid, hwq, hq, h1, h2⟩ |
    ⟨hwq, hun, h1, h2⟩ |
    ⟨rest, hwq, hun, h1, h2⟩ |
    ⟨qid, sid, r0, rtail, hwq, hq, h1, h2⟩ |
    ⟨qid, sid, hwq, hq, h1, h2⟩ |
    ⟨site, qid, rest, hwq, hun, hq, h1, h2⟩ |
    ⟨site, qid, sid, rest, hwq, hun, hq, h1, h2⟩ |
    ⟨site, qid, sid, q0, qtail, rest, hwq, hun, hq, h1, h2⟩
  · rw [h1, h2]
    exact ⟨hk, hq2, hs, hcl, hu, hn, hdj⟩
  · rw [h1, h2]
    exact ⟨hk, hq2, hs, hcl, hu, hn, hdj⟩
  · rw [h1, h2]
    refine ⟨hk, hq2, hs, hcl, ?_, ?_, hdj⟩
    · intro p hp
      exact hu p (by rw [hun]; exact List.mem_cons_of_mem _ hp)
    · rw [hun] at hn
      exact unassigned_nodup_tail hn
  · obtain ⟨k, hwk, hkmem⟩ := hcl w (self_mem_middle w pre post) qid hwq
    have hqlt : qid < st.store.length := (hs _ hkmem).1
    rw [h1, h2]
    refine ⟨hk, hq2, ?_, hcl, hu, hn, hdj⟩
    intro p hp
    constructor
    · rw [List.length_set]
      exact (hs p hp).1
    · by_cases hpq : p.2 = qid
      · rw [hpq, qget_set_self hqlt]
        simp
      · rw [qget_set_ne hpq]
        exact (hs p hp).2
  · obtain ⟨k, hwk, hkmem⟩ := hcl w (self_mem_middle w pre post) qid hwq
    have hwck : claimedKey w = some k := claimedKey_eq hwq hwk
    have hgd : w.wsite.getD "" = k := by rw [hwk]; rfl
    rw [h1, h2, hgd]
    refine ⟨?_, ?_, ?_, ?_, ?_, hn, ?_⟩
    · exact List.Nodup.sublist (delSite_map_sublist st.sites k Prod.fst) hk
    · exact List.Nodup.sublist (delSite_map_sublist st.sites k Prod.snd) hq2
    · intro p hp
      obtain ⟨hpmem, hpne⟩ := mem_delSite.mp hp
      constructor
      · rw [List.length_set]
        exact (hs p hpmem).1
      · have hpq : p.2 ≠ qid := by
          intro he
          exact hpne (by
            rw [show p = (k, qid) from inj_of_snd_nodup hq2 hpmem hkmem he])
        rw [qget_set_ne hpq]
        exact (hs p hpmem).2
    · intro x hx qid2 hxq
      rcases mem_middle_cases hx with hx | rfl | hx
      · obtain ⟨k2, hxk, hxmem⟩ := hcl x (mem_middle_of_side (Or.inl hx)) qid2 hxq
        refine ⟨k2, hxk, mem_delSite.mpr ⟨hxmem, fun he => ?_⟩⟩
        exact claims_unique_middle hdj (Or.inl hx) hwck (he ▸ claimedKey_eq hxq hxk)
      · simp at hxq
      · obtain ⟨k2, hxk, hxmem⟩ := hcl x (mem_middle_of_side (Or.inr hx)) qid2 hxq
        refine ⟨k2, hxk, mem_delSite.mpr ⟨hxmem, fun he => ?_⟩⟩
        exact claims_unique_middle hdj (Or.inr hx) hwck (he ▸ claimedKey_eq hxq hxk)
    · intro p hp
      obtain ⟨hpmem, hpcl⟩ := hu p hp
      refine ⟨mem_delSite.mpr ⟨hpmem, fun he => ?_⟩, ?_⟩
      · exact hpcl w (self_mem_middle w pre post) (by rw [hwck, he])
      · intro x hx
        rcases mem_middle_cases hx with hx | rfl | hx
        · exact hpcl x (mem_middle_of_side (Or.inl hx))
        · simp [claimedKey]
        · exact hpcl x (mem_middle_of_side (Or.inr hx))
    · refine pairwise_middle _ hdj ?_ ?_
      · intro x hx k2 hxk2
        simp [claimedKey]
      · intro x hx k2 hw2
        simp [claimedKey] at hw2
  · have hpu : some (site, qid) ∈ st.unassigned := by
      rw [hun]; exact List.mem_cons_self _ _
    obtain ⟨hpm, _⟩ := hu _ hpu
    exact absurd hq (hs _ hpm).2
  · have hpu : some (site, qid) ∈ st.unassigned := by
      rw [hun]; exact List.mem_cons_self _ _
    obtain ⟨hpm, hpcl⟩ := hu _ hpu
    have hrk : ∀ p : String × ℕ, some p ∈ rest → p.1 ≠ site := by
      rw [hun] at hn
      exact unassigned_head_key_not_in_rest hn
    rw [h1, h2]
    refine ⟨?_, ?_, ?_, ?_, ?_, ?_, hdj⟩
    · exact List.Nodup.sublist (delSite_map_sublist st.sites site Prod.fst) hk
    · exact List.Nodup.sublist (delSite_map_sublist st.sites site Prod.snd) hq2
    · intro p hp
      obtain ⟨hpmem, hpne⟩ := mem_delSite.mp hp
      constructor
      · rw [List.length_set]
        exact (hs p hpmem).1
      · have hpq : p.2 ≠ qid := by
          intro he
          exact hpne (by
            rw [show p = (site, qid) from inj_of_snd_nodup hq2 hpmem hpm he])
        rw [qget_set_ne hpq]
        exact (hs p hpmem).2
    · intro x hx qid2 hxq
      obtain ⟨k2, hxk, hxmem⟩ := hcl x hx qid2 hxq
      refine ⟨k2, hxk, mem_delSite.mpr ⟨hxmem, fun he => ?_⟩⟩
      exact hpcl x hx (he ▸ claimedKey_eq hxq hxk)
    · intro p hp
      have hpu2 : some p ∈ st.unassigned := by
        rw [hun]; exact List.mem_cons_of_mem _ hp
      obtain ⟨hpm2, hpcl2⟩ := hu p hpu2
      exact ⟨mem_delSite.mpr ⟨hpm2, hrk p hp⟩, hpcl2⟩
    · rw [hun] at hn
      exact unassigned_nodup_tail hn
  · have hpu : some (site, qid) ∈ st.unassigned := by
      rw [hun]; exact List.mem_cons_self _ _
    obtain ⟨hpm, hpcl⟩ := hu _ hpu
    have hqlt : qid < st.store.length := (hs _ hpm).1
    have hrk : ∀ p : String × ℕ, some p ∈ rest → p.1 ≠ site := by
      rw [hun] at hn
      exact unassigned_head_key_not_in_rest hn
    have hclw2 : claimedKey ({ wsite := some site, wqueue := some qid } : WorkerSt)
        = some site := rfl
    rw [h1, h2]
    refine ⟨hk, hq2, ?_, ?_, ?_, ?_, ?_⟩
    · intro p hp
      constructor
      · rw [List.length_set]
        exact (hs p hp).1
      · by_cases hpq : p.2 = qid
        · rw [hpq, qget_set_self hqlt]
          simp
        · rw [qget_set_ne hpq]
          exact (hs p hp).2
    · intro x hx qid2 hxq
      rcases mem_middle_cases hx with hx | rfl | hx
      · exact hcl x (mem_middle_of_side (Or.inl hx)) qid2 hxq
      · refine ⟨site, rfl, ?_⟩
        have : qid2 = qid := by
          have hxq2 : some qid = some qid2 := hxq
          exact (Option.some_inj.mp hxq2).symm
        rw [this]
        exact hpm
      · exact hcl x (mem_middle_of_side (Or.inr hx)) qid2 hxq
    · intro p hp
      have hpu2 : some p ∈ st.unassigned := by
        rw [hun]; exact List.mem_cons_of_mem _ hp
      obtain ⟨hpm2, hpcl2⟩ := hu p hpu2
      refine ⟨hpm2, ?_⟩
      intro x hx
      rcases mem_middle_cases hx with hx | rfl | hx
      · exact hpcl2 x (mem_middle_of_side (Or.inl hx))
      · rw [hclw2]
        intro he
        exact hrk p hp (Option.some_inj.mp he).symm
      · exact hpcl2 x (mem_middle_of_side (Or.inr hx))
    · rw [hun] at hn
      exact unassigned_nodup_tail hn
    · refine pairwise_middle _ hdj ?_ ?_
      · intro x hx k2 hxk2
        rw [hclw2]
        intro he
        have : k2 = site := Option.some_inj.mp he.symm
        rw [this] at hxk2
        exact hpcl x (mem_middle_of_side (Or.inl hx)) hxk2
      · intro x hx k2 hw2
        rw [hclw2] at hw2
        have : k2 = site := Option.some_inj.mp hw2.symm
        rw [this]
        exact hpcl x (mem_middle_of_side (Or.inr hx))

lemma enqueueOne_fresh_key (c : String → String) (e : Option (String → Bool))
    (hd : List (String × String)) (t : ℚ) (st : CVState) (url : String)
    (hh : url ∉ st.handled) (he : excludedBy e url = false)
    (hls : lookupSite st.sites (c url) = none) :
    (c url, st.store.length) ∈ (enqueueOne c e hd t st url).sites ∧
    some (c url, st.store.length) ∈ (enqueueOne c e hd t st url).unassigned := by
  unfold enqueueOne
  rw [if_neg hh, if_neg (by rw [he]; exact Bool.false_ne_true)]
  constructor <;>
    simp [hls]

lemma dequeueOnce_claimed_drain (st : CVState) (w : WorkerSt) (qid sid : ℕ)
    (k : String) (hwq : w.wqueue = some qid) (hwk : w.wsite = some k)
    (hq : qget st.store qid = [sid]) :
    lookupSite (dequeueOnce st w).2.1.sites k = none ∧
    (dequeueOnce st w).2.2.wqueue = none := by
  rcases dequeueOnce_shape st w with
    ⟨qid2, hwq2, hq2, h1, h2⟩ |
    ⟨hwq2, hun2, h1, h2⟩ |
    ⟨rest2, hwq2, hun2, h1, h2⟩ |
    ⟨qid2, sid2, r0, rtail, hwq2, hq2, h1, h2⟩ |
    ⟨qid2, sid2, hwq2, hq2, h1, h2⟩ |
    ⟨site2, qid2, rest2, hwq2, hun2, hq2, h1, h2⟩ |
    ⟨site2, qid2, sid2, rest2, hwq2, hun2, hq2, h1, h2⟩ |
    ⟨site2, qid2, sid2, q0, qtail, rest2, hwq2, hun2, hq2, h1, h2⟩
  · rw [hwq] at hwq2
    obtain rfl : qid = qid2 := Option.some_inj.mp hwq2
    rw [hq] at hq2
    cases hq2
  · rw [hwq] at hwq2
    cases hwq2
  · rw [hwq] at hwq2
    cases hwq2
  · rw [hwq] at hwq2
    obtain rfl : qid = qid2 := Option.some_inj.mp hwq2
    rw [hq] at hq2
    simp at hq2
  · rw [hwq] at hwq2
    obtain rfl : qid = qid2 := Option.some_inj.mp hwq2
    rw [h1, h2]
    constructor
    · rw [show w.wsite.getD "" = k by rw [hwk]; rfl]
      exact lookupSite_delSite st.sites k
    · rfl
  · rw [hwq] at hwq2
    cases hwq2
  · rw [hwq] at hwq2
    cases hwq2
  · rw [hwq] at hwq2
    cases hwq2

lemma dequeueOnce_dispatch_drain (st : CVState) (w : WorkerSt)
    (site : String) (qid sid : ℕ) (rest : List (Option (String × ℕ)))
    (hwq : w.wqueue = none) (hun : st.unassigned = some (site, qid) :: rest)
    (hq : qget st.store qid = [sid]) :
    lookupSite (dequeueOnce st w).2.1.sites site = none ∧
    (dequeueOnce st w).2.2 = w := by
  rcases dequeueOnce_shape st w with
    ⟨qid2, hwq2, hq2, h1, h2⟩ |
    ⟨hwq2, hun2, h1, h2⟩ |
    ⟨rest2, hwq2, hun2, h1, h2⟩ |
    ⟨qid2, sid2, r0, rtail, hwq2, hq2, h1, h2⟩ |
    ⟨qid2, sid2, hwq2, hq2, h1, h2⟩ |
    ⟨site2, qid2, rest2, hwq2, hun2, hq2, h1, h2⟩ |
    ⟨site2, qid2, sid2, rest2, hwq2, hun2, hq2, h1, h2⟩ |
    ⟨site2, qid2, sid2, q0, qtail, rest2, hwq2, hun2, hq2, h1, h2⟩
  · rw [hwq] at hwq2
    cases hwq2
  · rw [hun] at hun2
    cases hun2
  · rw [hun] at hun2
    injection hun2 with hhead htail
    cases hhead
  · rw [hwq] at hwq2
    cases hwq2
  · rw [hwq] at hwq2
    cases hwq2
  · rw [hun] at hun2
    injection hun2 with hhead htail
    injection hhead with hpair
    injection hpair with hs1 hs2
    subst hs1
    subst hs2
    rw [hq] at hq2
    cases hq2
  · rw [hun] at hun2
    injection hun2 with hhead htail
    injection hhead with hpair
    injection hpair with hs1 hs2
    subst hs1
    subst hs2
    rw [h1, h2]
    exact ⟨lookupSite_delSite _ _, rfl⟩
  · rw [hun] at hun2
    injection hun2 with hhead htail
    injection hhead with hpair
    injection hpair with hs1 hs2
    subst hs1
    subst hs2
    rw [hq] at hq2
    simp at hq2

/-- C8: the queue-registry invariant — a domain key is present in `sites` if
and only if its queue is non-empty or claimed by exactly one worker (the
invariant `QInv` additionally records that a present key's queue is always
non-empty, that claims point back into `sites`, and that dispatch pairs are
live and unclaimed) — is preserved by every enqueue and dequeue step;
moreover a dequeue that drains a claimed domain's queue deletes that domain's
mapping entry and clears the worker's claim, a dispatch dequeue that drains
the queue deletes the entry without claiming, and enqueueing a URL of an
unseen domain adds the mapping entry together with its dispatch pair. -/
theorem C8_registry_invariant (st st' : CVState) (ws ws' : List WorkerSt)
    (hInv : QInv st ws) (hstep : QStep (st, ws) (st', ws')) :
    QInv st' ws' ∧
    (∀ (w : WorkerSt) (qid sid : ℕ) (k : String),
      w.wqueue = some qid → w.wsite = some k → qget st.store qid = [sid] →
      lookupSite (dequeueOnce st w).2.1.sites k = none ∧
      (dequeueOnce st w).2.2.wqueue = none) ∧
    (∀ (w : WorkerSt) (site : String) (qid sid : ℕ)
        (rest : List (Option (String × ℕ))),
      w.wqueue = none → st.unassigned = some (site, qid) :: rest →
      qget st.store qid = [sid] →
      lookupSite (dequeueOnce st w).2.1.sites site = none ∧
      (dequeueOnce st w).2.2 = w) ∧
    (∀ (c : String → String) (e : Option (String → Bool))
        (hd : List (String × String)) (t : ℚ) (url : String),
      url ∉ st.handled → excludedBy e url = false →
      lookupSite st.sites (c url) = none →
      (c url, st.store.length) ∈ (enqueueOne c e hd t st url).sites ∧
      some (c url, st.store.length) ∈ (enqueueOne c e hd t st url).unassigned) := by
  refine ⟨?_, ?_, ?_, ?_⟩
  · cases hstep with
    | enq c e hd t st ws url => exact enqueueOne_preserves_QInv c e hd t st ws url hInv
    | deq st pre post w => exact dequeueOnce_preserves_QInv st pre post w hInv
  · intro w qid sid k hwq hwk hq
    exact dequeueOnce_claimed_drain st w qid sid k hwq hwk hq
  · intro w site qid sid rest hwq hun hq
    exact dequeueOnce_dispatch_drain st w site qid sid rest hwq hun hq
  · intro c e hd t url hh he hls
    exact enqueueOne_fresh_key c e hd t st url hh he hls

/-- Witness for C8: the invariant holds of the empty registry with one idle
worker and is preserved across a concrete enqueue step. -/
theorem C8_registry_invariant_witness :
    QInv (enqueueOne (fun _ => "example.com") none [] 5 initState
      "http://example.com/a") [{ wsite := none, wqueue := none }] :=
  (C8_registry_invariant initState
    (enqueueOne (fun _ => "example.com") none [] 5 initState "http://example.com/a")
    [{ wsite := none, wqueue := none }] [{ wsite := none, wqueue := none }]
    ⟨by simp [initState], by simp [initState], by simp [initState],
     by
      intro w hw qid hwq
      simp only [List.mem_singleton] at hw
      subst hw
      simp at hwq,
     by simp [initState], by simp [initState], by simp⟩
    (QStep.enq (fun _ => "example.com") none [] 5 initState
      [{ wsite := none, wqueue := none }] "http://example.com/a")).1

end Copyvios
